import Mathlib

/-!
Verification development for the filesystem-benchmark engine
(`scripts/benchmarks.py`, `scripts/metadata.py` of the repository).

The Python code is shallowly embedded: durations delivered by `time.time()`
are modelled as rational numbers supplied by oracles (one duration per
primitive I/O or compute step, with all untimed glue taken as instantaneous
unless stated otherwise), the filesystem is modelled as explicit data
(a `Finset` of created file indices for the metadata benchmark, an
`Option`-valued lookup for the large test files, a list of small files),
and Python exceptions become `Except` values.  Each definition names the
source function it embeds.
-/

namespace FsBench

/-- Linear interpolation of a sample list at a fractional index `pos`:
the value between the order statistics at `⌊pos⌋` and the next index
(clamped to the last index), weighted by the fractional part of `pos`. -/
def interpAt (s : List ℚ) (pos : ℚ) : ℚ :=
  let i : ℕ := (⌊pos⌋).toNat
  let lo := s.getD i 0
  let hi := s.getD (min (i + 1) (s.length - 1)) 0
  lo + (pos - (i : ℚ)) * (hi - lo)

/-- Percentile value as computed by `np.percentile` with its default linear
interpolation: on the sorted samples `s` of length `n`, the value at rank `q`
is the linear interpolation of `s` at fractional position `q / 100 * (n - 1)`.
This embeds the call `np.percentile(latencies, p)` made by
`BenchmarkRunner._calculate_percentiles`. -/
def npPercentile (l : List ℚ) (q : ℚ) : ℚ :=
  let s := l.insertionSort (· ≤ ·)
  interpAt s (q / 100 * ((s.length : ℚ) - 1))

theorem interpAt_def (s : List ℚ) (pos : ℚ) :
    interpAt s pos =
      s.getD (⌊pos⌋).toNat 0 + (pos - (((⌊pos⌋).toNat : ℕ) : ℚ)) *
        (s.getD (min ((⌊pos⌋).toNat + 1) (s.length - 1)) 0 -
          s.getD (⌊pos⌋).toNat 0) := rfl

/-- Embeds `BenchmarkRunner._calculate_percentiles`: an empty sample list
yields an empty mapping; otherwise one labelled entry per configured rank
(the Python key is `f"p{int(p)}"`; ranks are non-negative so `int` truncation
is the floor). -/
def calculate_percentiles (percRanks : List ℚ) (latencies : List ℚ) :
    List (String × ℚ) :=
  if latencies.isEmpty then []
  else percRanks.map (fun p => ("p" ++ toString ⌊p⌋, npPercentile latencies p))

theorem sorted_getD_mono {s : List ℚ} (hs : s.Sorted (· ≤ ·)) {i j : ℕ}
    (hij : i ≤ j) (hj : j < s.length) : s.getD i 0 ≤ s.getD j 0 := by
  have hi : i < s.length := Nat.lt_of_le_of_lt hij hj
  rw [List.getD_eq_getElem?_getD, List.getD_eq_getElem?_getD,
    List.getElem?_eq_getElem hi, List.getElem?_eq_getElem hj]
  simpa using hs.rel_get_of_le
    (show (⟨i, hi⟩ : Fin s.length) ≤ ⟨j, hj⟩ from hij)

theorem interpAt_mono {s : List ℚ} (hs : s.Sorted (· ≤ ·)) {a b : ℚ}
    (ha : 0 ≤ a) (hab : a ≤ b) (hb : b ≤ (s.length : ℚ) - 1) :
    interpAt s a ≤ interpAt s b := by
  have hb0 : 0 ≤ b := ha.trans hab
  have hlen : 1 ≤ s.length := by
    rcases Nat.eq_zero_or_pos s.length with h0 | h1
    · rw [h0] at hb; norm_num at hb; linarith
    · exact h1
  have hfa : (0 : ℤ) ≤ ⌊a⌋ := Int.floor_nonneg.mpr ha
  have hfb : (0 : ℤ) ≤ ⌊b⌋ := Int.floor_nonneg.mpr hb0
  have hia : (((⌊a⌋).toNat : ℕ) : ℚ) = ((⌊a⌋ : ℤ) : ℚ) := by
    exact_mod_cast congrArg (fun z : ℤ => (z : ℚ)) (Int.toNat_of_nonneg hfa)
  have hib : (((⌊b⌋).toNat : ℕ) : ℚ) = ((⌊b⌋ : ℤ) : ℚ) := by
    exact_mod_cast congrArg (fun z : ℤ => (z : ℚ)) (Int.toNat_of_nonneg hfb)
  have hfloorb : ⌊b⌋ ≤ (s.length : ℤ) - 1 := by
    have h1 : ⌊b⌋ ≤ ⌊((s.length : ℚ) - 1)⌋ := Int.floor_mono hb
    have h2 : ((s.length : ℚ) - 1) = (((s.length : ℤ) - 1 : ℤ) : ℚ) := by
      push_cast; ring
    rwa [h2, Int.floor_intCast] at h1
  have hga0 : 0 ≤ a - (((⌊a⌋).toNat : ℕ) : ℚ) := by
    rw [hia]; exact sub_nonneg.mpr (Int.floor_le a)
  have hga1 : a - (((⌊a⌋).toNat : ℕ) : ℚ) < 1 := by
    rw [hia]; have := Int.lt_floor_add_one a; linarith
  have hgb0 : 0 ≤ b - (((⌊b⌋).toNat : ℕ) : ℚ) := by
    rw [hib]; exact sub_nonneg.mpr (Int.floor_le b)
  have hgb1 : b - (((⌊b⌋).toNat : ℕ) : ℚ) < 1 := by
    rw [hib]; have := Int.lt_floor_add_one b; linarith
  have hibn : (⌊b⌋).toNat ≤ s.length - 1 := by omega
  have hiab : (⌊a⌋).toNat ≤ (⌊b⌋).toNat := by
    have := Int.floor_mono hab; omega
  have hloA : s.getD (⌊a⌋).toNat 0 ≤
      s.getD (min ((⌊a⌋).toNat + 1) (s.length - 1)) 0 :=
    sorted_getD_mono hs (by omega) (by omega)
  have hloB : s.getD (⌊b⌋).toNat 0 ≤
      s.getD (min ((⌊b⌋).toNat + 1) (s.length - 1)) 0 :=
    sorted_getD_mono hs (by omega) (by omega)
  rw [interpAt_def, interpAt_def]
  rcases Nat.eq_or_lt_of_le hiab with heq | hlt
  · rw [← heq]
    have hgab : a - (((⌊a⌋).toNat : ℕ) : ℚ) ≤ b - (((⌊a⌋).toNat : ℕ) : ℚ) := by
      linarith
    nlinarith [hloA, hgab]
  · have hmid : s.getD (min ((⌊a⌋).toNat + 1) (s.length - 1)) 0 ≤
        s.getD (⌊b⌋).toNat 0 :=
      sorted_getD_mono hs (by omega) (by omega)
    nlinarith [hloA, hloB, hmid, hga0, hga1, hgb0]

theorem interpAt_last {s : List ℚ} (hlen : 1 ≤ s.length) :
    interpAt s ((s.length : ℚ) - 1) = s.getD (s.length - 1) 0 := by
  have h2 : ((s.length : ℚ) - 1) = (((s.length : ℤ) - 1 : ℤ) : ℚ) := by
    push_cast; ring
  have h3 : ((s.length : ℤ) - 1).toNat = s.length - 1 := by omega
  have h4 : min (s.length - 1 + 1) (s.length - 1) = s.length - 1 := by omega
  rw [interpAt_def, h2, Int.floor_intCast, h3, h4]
  simp

/-- C3: for every non-empty sample list and ranks `p ≤ q` in `[0,100]`, the
percentile calculator's value at `p` is at most its value at `q`, and the
value at rank `100` is the maximum sample (it is one of the samples and an
upper bound of all of them). -/
theorem C3_percentiles_monotone (l : List ℚ) (hl : l ≠ []) (p q : ℚ)
    (hp : 0 ≤ p) (hpq : p ≤ q) (hq : q ≤ 100) :
    npPercentile l p ≤ npPercentile l q ∧
      npPercentile l 100 ∈ l ∧ ∀ x ∈ l, x ≤ npPercentile l 100 := by
  have hs : (l.insertionSort (· ≤ ·)).Sorted (· ≤ ·) :=
    List.sorted_insertionSort (· ≤ ·) l
  set s := l.insertionSort (· ≤ ·) with hs_def
  have hsl : s.length = l.length := by simp [hs_def]
  have hlen : 1 ≤ s.length := by
    have h0 : l.length ≠ 0 := fun h => hl (List.length_eq_zero.mp h)
    omega
  have hn0 : (0 : ℚ) ≤ (s.length : ℚ) - 1 := by
    have h1 : (1 : ℚ) ≤ (s.length : ℚ) := by exact_mod_cast hlen
    linarith
  refine ⟨?_, ?_⟩
  · show interpAt s (p / 100 * ((s.length : ℚ) - 1)) ≤
      interpAt s (q / 100 * ((s.length : ℚ) - 1))
    apply interpAt_mono hs
    · exact mul_nonneg (by linarith) hn0
    · exact mul_le_mul_of_nonneg_right (by linarith) hn0
    · nlinarith
  · have h100 : npPercentile l 100 = s.getD (s.length - 1) 0 := by
      show interpAt s ((100 : ℚ) / 100 * ((s.length : ℚ) - 1)) = _
      rw [show (100 : ℚ) / 100 * ((s.length : ℚ) - 1) = (s.length : ℚ) - 1 by
        norm_num]
      exact interpAt_last hlen
    have hlt : s.length - 1 < s.length := by omega
    have hgetd : s.getD (s.length - 1) 0 = s.get ⟨s.length - 1, hlt⟩ := by
      rw [List.getD_eq_getElem?_getD, List.getElem?_eq_getElem hlt]
      rfl
    constructor
    · rw [h100, hgetd]
      have hmem : s.get ⟨s.length - 1, hlt⟩ ∈ s := List.get_mem s _ _
      exact (List.mem_insertionSort _).mp hmem
    · intro x hx
      have hxs : x ∈ s := (List.mem_insertionSort _).mpr hx
      obtain ⟨k, hk⟩ := List.get_of_mem hxs
      rw [h100, hgetd, ← hk]
      exact hs.rel_get_of_le (Fin.mk_le_mk.mpr (by omega))

theorem npPercentile_singleton (v q : ℚ) : npPercentile [v] q = v := by
  simp [npPercentile, interpAt, List.insertionSort, List.orderedInsert]

/-- C4: the percentile calculator returns an empty mapping on an empty sample
list (it does not raise and does not zero-fill), and on a one-element sample
list every requested rank maps to that one sample's value. -/
theorem C4_percentile_edge_cases (ranks : List ℚ) (v : ℚ) :
    calculate_percentiles ranks [] = [] ∧
      (calculate_percentiles ranks [v]).length = ranks.length ∧
      ∀ pr ∈ calculate_percentiles ranks [v], pr.2 = v := by
  refine ⟨by simp [calculate_percentiles], by simp [calculate_percentiles], ?_⟩
  intro pr hpr
  simp only [calculate_percentiles, List.isEmpty_cons, if_false] at hpr
  obtain ⟨p, -, rfl⟩ := List.mem_map.mp hpr
  exact npPercentile_singleton v p

/-- Witness for C4 at concrete inputs. -/
theorem C4_percentile_edge_cases_witness :
    calculate_percentiles [(50 : ℚ), 95, 99] [] = [] ∧
      (calculate_percentiles [(50 : ℚ), 95, 99] [(7 : ℚ)]).length =
        [(50 : ℚ), 95, 99].length ∧
      ∀ pr ∈ calculate_percentiles [(50 : ℚ), 95, 99] [(7 : ℚ)], pr.2 = 7 :=
  C4_percentile_edge_cases [(50 : ℚ), 95, 99] 7

/-- Witness for C3 at a concrete sample list and ranks. -/
theorem C3_percentiles_monotone_witness :
    npPercentile [(3 : ℚ), 1, 2] 50 ≤ npPercentile [(3 : ℚ), 1, 2] 95 ∧
      npPercentile [(3 : ℚ), 1, 2] 100 ∈ [(3 : ℚ), 1, 2] ∧
      ∀ x ∈ [(3 : ℚ), 1, 2], x ≤ npPercentile [(3 : ℚ), 1, 2] 100 :=
  C3_percentiles_monotone [(3 : ℚ), 1, 2] (by simp) 50 95 (by norm_num)
    (by norm_num) (by norm_num)

/-- Embeds the `BenchmarkMetrics` container (`benchmarks.py` lines 12–21):
a freshly constructed record carries these defaults, and each benchmark
assigns only some of the fields afterwards. -/
structure BenchmarkMetrics where
  test_name : String
  elapsed_sec : ℚ := 0
  throughput_mbps : ℚ := 0
  iops : ℚ := 0
  latency_percentiles : List (String × ℚ) := []
  file_size_mb : ℚ := 0
  operations_count : ℕ := 0
deriving DecidableEq

/-- The per-operation sampling pattern shared by the benchmark loops: the
zero-based loop counter starts at `i` and an operation's duration is
recorded exactly when its counter value is below `cap` (the 1-based guard
`operations <= sample_size` of `_sequential_read_single` is the same
condition). -/
def sampleLoop (cap : ℕ) : ℕ → List ℚ → List ℚ
  | _, [] => []
  | i, d :: rest =>
    if i < cap then d :: sampleLoop cap (i + 1) rest
    else sampleLoop cap (i + 1) rest

theorem sampleLoop_eq_take (cap : ℕ) :
    ∀ (l : List ℚ) (i : ℕ), sampleLoop cap i l = l.take (cap - i) := by
  intro l
  induction l with
  | nil => intro i; simp [sampleLoop]
  | cons d rest ih =>
    intro i
    by_cases h : i < cap
    · rw [show sampleLoop cap i (d :: rest) =
            if i < cap then d :: sampleLoop cap (i + 1) rest
            else sampleLoop cap (i + 1) rest from rfl,
        if_pos h, ih (i + 1), show cap - i = (cap - (i + 1)) + 1 from by omega,
        List.take_succ_cons]
    · rw [show sampleLoop cap i (d :: rest) =
            if i < cap then d :: sampleLoop cap (i + 1) rest
            else sampleLoop cap (i + 1) rest from rfl,
        if_neg h, ih (i + 1), show cap - i = 0 from by omega,
        show cap - (i + 1) = 0 from by omega]
      simp

/-- One chunk iteration of `_sequential_write_single`: `ioDur` is the time
spent inside the timed bracket (`f.write(os.urandom(chunk_size_bytes))`,
whose argument is generated inside the bracket), `gapDur` the untimed
per-iteration overhead outside the bracket. -/
structure WriteChunk where
  ioDur : ℚ
  gapDur : ℚ
deriving DecidableEq

/-- `chunk_size_mb = 100` in `_sequential_write_single`. -/
def chunk_size_mb : ℕ := 100

/-- `total_chunks = size_mb // chunk_size_mb` (Python floor division), for a
configured size of `sizeGb` GB with `size_mb = size_gb * 1024`. -/
def total_chunks (sizeGb : ℕ) : ℕ := sizeGb * 1024 / chunk_size_mb

/-- Megabytes actually written by `_sequential_write_single`: `total_chunks`
chunks of `chunk_size_mb` MB each. -/
def seqWriteTotalMbWritten (sizeGb : ℕ) : ℕ :=
  total_chunks sizeGb * chunk_size_mb

/-- Embeds `BenchmarkRunner._sequential_write_single` (lines 62–109): write
`total_chunks` fixed-size chunks, sample the first
`min(Config.LATENCY_SAMPLES, total_chunks)` chunk timings, then fill the
metric fields; `chunkOf` is the duration oracle for chunk `i`. -/
def sequential_write_single (cap : ℕ) (ranks : List ℚ) (sizeGb : ℕ)
    (chunkOf : ℕ → WriteChunk) : BenchmarkMetrics :=
  let size_mb : ℕ := sizeGb * 1024
  let chunks := (List.range (total_chunks sizeGb)).map chunkOf
  let sample_size := min cap (total_chunks sizeGb)
  let latencies := sampleLoop sample_size 0 (chunks.map (fun c => c.ioDur))
  let elapsed : ℚ := (chunks.map (fun c => c.ioDur + c.gapDur)).sum
  { test_name := "Sequential Write " ++ toString sizeGb ++ "GB"
    file_size_mb := (size_mb : ℚ)
    elapsed_sec := elapsed
    throughput_mbps := (size_mb : ℚ) / elapsed
    operations_count := total_chunks sizeGb
    iops := ((total_chunks sizeGb : ℕ) : ℚ) / elapsed
    latency_percentiles := calculate_percentiles ranks latencies }

/-- C2 counterexample: at configured size 1 GB the write phase performs
`1024 // 100 = 10` chunk writes of 100 MB, i.e. 1000 MB in total — not the
full 1 × 1024 MB the claim asserts. -/
theorem C2_write_total_counterexample :
    (sequential_write_single 5 [] 1 (fun _ => ⟨1, 0⟩)).operations_count = 10 ∧
      seqWriteTotalMbWritten 1 = 1000 ∧ seqWriteTotalMbWritten 1 ≠ 1 * 1024 := by
  refine ⟨rfl, rfl, by decide⟩

/-- C2 (amended): the write phase writes `⌊S×1024/100⌋` fixed 100 MB chunks —
`100 × ⌊S×1024/100⌋` MB in total, which is the full `S×1024` MB only when
100 divides `S×1024` — and `throughput_mbps` is the nominal `S×1024` MB
divided by the whole-phase elapsed seconds (the full loop time including the
untimed per-iteration overhead, never a sum of the per-chunk latency
timings). -/
theorem C2_sequential_write_amended (cap : ℕ) (ranks : List ℚ) (sizeGb : ℕ)
    (chunkOf : ℕ → WriteChunk) :
    (sequential_write_single cap ranks sizeGb chunkOf).operations_count =
        sizeGb * 1024 / 100 ∧
      seqWriteTotalMbWritten sizeGb = 100 * (sizeGb * 1024 / 100) ∧
      (sequential_write_single cap ranks sizeGb chunkOf).throughput_mbps =
        ((sizeGb * 1024 : ℕ) : ℚ) /
          (sequential_write_single cap ranks sizeGb chunkOf).elapsed_sec ∧
      (sequential_write_single cap ranks sizeGb chunkOf).elapsed_sec =
        (((List.range (total_chunks sizeGb)).map chunkOf).map
          (fun c => c.ioDur + c.gapDur)).sum :=
  ⟨rfl, Nat.mul_comm _ _, rfl, rfl⟩

/-- One buffer iteration of `_sequential_read_single`: `readDur` is the
duration of the `f.read(buffer_size)` call in the `while` header, `procDur`
the duration of the timed region, which brackets only `_ = len(chunk)`. -/
structure ReadChunk where
  readDur : ℚ
  procDur : ℚ
deriving DecidableEq

/-- The large test file `file_<N>GB.bin` as the read phase sees it: its
`stat` size in bytes and the successive non-empty buffers `read` yields. -/
structure LargeFile where
  sizeBytes : ℕ
  chunks : List ReadChunk
deriving DecidableEq

/-- A small test file as `random_file_read_write` sees it: the duration of
its full read and of its append. -/
structure SmallFile where
  readDur : ℚ
  appendDur : ℚ
deriving DecidableEq

/-- Errors raised inside `MetadataOperations.run_metadata_tests`, labelled by
the failing call and file index. -/
inductive MetaErr where
  | createErr (i : ℕ)
  | chmodErr (i : ℕ)
  | deleteErr (i : ℕ)
deriving DecidableEq

/-- Exceptions of the benchmark phases: the two `FileNotFoundError`
preconditions, an I/O failure in the write loop, and a metadata failure. -/
inductive BenchErr where
  | fileNotFound (sizeGb : ℕ)
  | noTestFiles
  | writeFailure (sizeGb : ℕ)
  | metaFailure (e : MetaErr)
deriving DecidableEq

/-- Observable I/O calls of the read phases, used to state that a failed
precondition performs none of the phase's I/O. -/
inductive IoEvent where
  | largeRead (sizeGb : ℕ) (idx : ℕ)
  | smallRead (idx : ℕ)
  | smallAppend (idx : ℕ)
deriving DecidableEq

/-- The latency sample list collected by the read loop of
`_sequential_read_single`: the guard `operations <= sample_size` admits the
first `sample_size` buffers, and the timed region brackets only
`_ = len(chunk)`, so each recorded sample is that buffer's `procDur`. -/
def seqReadLatencies (cap : ℕ) (chunks : List ReadChunk) : List ℚ :=
  sampleLoop cap 0 (chunks.map (fun c => c.procDur))

/-- Embeds `BenchmarkRunner._sequential_read_single` (lines 122–173): raise
`FileNotFoundError` before any I/O when the target file is absent; otherwise
read buffer-by-buffer, count one operation per buffer, and record the timed
region's duration for the first `Config.LATENCY_SAMPLES` operations. -/
def sequential_read_single (largeFiles : ℕ → Option LargeFile) (cap : ℕ)
    (ranks : List ℚ) (sizeGb : ℕ) :
    Except BenchErr BenchmarkMetrics × List IoEvent :=
  match largeFiles sizeGb with
  | none => (.error (.fileNotFound sizeGb), [])
  | some file =>
    let file_size_mb : ℚ := (file.sizeBytes : ℚ) / (1024 * 1024)
    let operations := file.chunks.length
    let latencies := seqReadLatencies cap file.chunks
    let elapsed : ℚ := (file.chunks.map (fun c => c.readDur + c.procDur)).sum
    (.ok { test_name := "Sequential Read " ++ toString sizeGb ++ "GB"
           file_size_mb := file_size_mb
           elapsed_sec := elapsed
           throughput_mbps := file_size_mb / elapsed
           operations_count := operations
           iops := ((operations : ℕ) : ℚ) / elapsed
           latency_percentiles := calculate_percentiles ranks latencies },
     (List.range operations).map (IoEvent.largeRead sizeGb))

/-- C1: at the failing input — a sampled buffer whose `read` call takes 5 s
and whose `len(chunk)` takes 1 s — the recorded latency sample is the 1 s
processing duration, not the 5 s read-call duration: the timed bracket
surrounds only `_ = len(chunk)` while the read itself runs untimed in the
`while` header. -/
theorem C1_latency_records_processing_not_read :
    seqReadLatencies 5 [ReadChunk.mk 5 1] = [1] ∧
      seqReadLatencies 5 [ReadChunk.mk 5 1] ≠ [5] := by
  refine ⟨rfl, by decide⟩

/-- Embeds `BenchmarkRunner.random_file_read_write` (lines 175–232): raise
`FileNotFoundError` before any I/O when the directory holds no `file_*.txt`;
otherwise one full read of every file, then one fixed-size append to every
file, the first `min(Config.LATENCY_SAMPLES, N)` operations of each
sub-phase feeding one shared latency list. -/
def random_file_read_write (cap : ℕ) (ranks : List ℚ)
    (files : List SmallFile) :
    Except BenchErr BenchmarkMetrics × List IoEvent :=
  if files.isEmpty then (.error .noTestFiles, [])
  else
    let sample_size := min cap files.length
    let readLats := files.map (fun f => f.readDur)
    let appendLats := files.map (fun f => f.appendDur)
    let latencies := sampleLoop sample_size 0 readLats ++
      sampleLoop sample_size 0 appendLats
    let elapsed : ℚ := readLats.sum + appendLats.sum
    (.ok { test_name := "Random Read/Write Small Files"
           elapsed_sec := elapsed
           operations_count := files.length * 2
           iops := ((files.length * 2 : ℕ) : ℚ) / elapsed
           latency_percentiles := calculate_percentiles ranks latencies },
     (List.range files.length).map IoEvent.smallRead ++
       (List.range files.length).map IoEvent.smallAppend)

/-- C7: a missing target file makes the sequential-read phase fail with the
NotFound error before performing any read, and an empty small-file set makes
the random read/write benchmark fail with the NotFound error before
performing any read or append. -/
theorem C7_notfound_preconditions (largeFiles : ℕ → Option LargeFile)
    (cap : ℕ) (ranks : List ℚ) (sizeGb : ℕ)
    (hmiss : largeFiles sizeGb = none) :
    sequential_read_single largeFiles cap ranks sizeGb =
        (.error (.fileNotFound sizeGb), []) ∧
      random_file_read_write cap ranks [] = (.error .noTestFiles, []) := by
  constructor
  · unfold sequential_read_single
    rw [hmiss]
  · rfl

/-- Witness for C7 with a concrete empty filesystem. -/
theorem C7_notfound_preconditions_witness :
    sequential_read_single (fun _ => none) 5 [(50 : ℚ)] 1 =
        (.error (.fileNotFound 1), []) ∧
      random_file_read_write 5 [(50 : ℚ)] [] = (.error .noTestFiles, []) :=
  C7_notfound_preconditions (fun _ => none) 5 [(50 : ℚ)] 1 rfl

/-- C8: on a non-empty file set the random read/write benchmark reports
`operations_count = 2×N`, an elapsed time spanning the read sub-phase and
the append sub-phase, `iops = operations_count / elapsed_seconds`, and one
shared percentile mapping computed from the first `min(sample_cap, N)`
samples of each sub-phase. -/
theorem C8_random_rw_metrics (cap : ℕ) (ranks : List ℚ)
    (files : List SmallFile) (h : files ≠ []) :
    ∃ m, (random_file_read_write cap ranks files).1 = .ok m ∧
      m.operations_count = 2 * files.length ∧
      m.elapsed_sec = (files.map (fun f => f.readDur)).sum +
        (files.map (fun f => f.appendDur)).sum ∧
      m.iops = ((m.operations_count : ℕ) : ℚ) / m.elapsed_sec ∧
      m.latency_percentiles = calculate_percentiles ranks
        ((files.map (fun f => f.readDur)).take (min cap files.length) ++
          (files.map (fun f => f.appendDur)).take (min cap files.length)) := by
  have hne : files.isEmpty = false := by
    simpa [List.isEmpty_iff] using h
  refine ⟨{ test_name := "Random Read/Write Small Files"
            elapsed_sec := (files.map (fun f => f.readDur)).sum +
              (files.map (fun f => f.appendDur)).sum
            operations_count := files.length * 2
            iops := ((files.length * 2 : ℕ) : ℚ) /
              ((files.map (fun f => f.readDur)).sum +
                (files.map (fun f => f.appendDur)).sum)
            latency_percentiles := calculate_percentiles ranks
              (sampleLoop (min cap files.length) 0
                  (files.map (fun f => f.readDur)) ++
                sampleLoop (min cap files.length) 0
                  (files.map (fun f => f.appendDur))) },
    ?_, Nat.mul_comm _ _, rfl, rfl, ?_⟩
  · unfold random_file_read_write
    rw [hne]
    rfl
  · show calculate_percentiles ranks
        (sampleLoop (min cap files.length) 0 (files.map (fun f => f.readDur)) ++
          sampleLoop (min cap files.length) 0
            (files.map (fun f => f.appendDur))) = _
    rw [sampleLoop_eq_take, sampleLoop_eq_take, Nat.sub_zero]

/-- Witness for C8 at a concrete two-file directory. -/
theorem C8_random_rw_metrics_witness :
    ([SmallFile.mk 1 2, SmallFile.mk 3 4] ≠ []) ∧
      ∃ m, (random_file_read_write 1 [(50 : ℚ)]
          [SmallFile.mk 1 2, SmallFile.mk 3 4]).1 = .ok m ∧
        m.operations_count = 2 * [SmallFile.mk 1 2, SmallFile.mk 3 4].length ∧
        m.elapsed_sec =
          ([SmallFile.mk 1 2, SmallFile.mk 3 4].map (fun f => f.readDur)).sum +
            ([SmallFile.mk 1 2, SmallFile.mk 3 4].map
              (fun f => f.appendDur)).sum ∧
        m.iops = ((m.operations_count : ℕ) : ℚ) / m.elapsed_sec ∧
        m.latency_percentiles = calculate_percentiles [(50 : ℚ)]
          (([SmallFile.mk 1 2, SmallFile.mk 3 4].map
              (fun f => f.readDur)).take
              (min 1 [SmallFile.mk 1 2, SmallFile.mk 3 4].length) ++
            ([SmallFile.mk 1 2, SmallFile.mk 3 4].map
              (fun f => f.appendDur)).take
              (min 1 [SmallFile.mk 1 2, SmallFile.mk 3 4].length)) :=
  ⟨by simp, C8_random_rw_metrics 1 [(50 : ℚ)]
    [SmallFile.mk 1 2, SmallFile.mk 3 4] (by simp)⟩

/-- Fault and duration oracles for one metadata benchmark run: whether each
`touch`/`chmod`/`unlink` call raises, whether the best-effort cleanup
`unlink` of a file itself raises, and how long each call takes. -/
structure MetaEnv where
  createFails : ℕ → Bool
  chmodFails : ℕ → Bool
  deleteFails : ℕ → Bool
  cleanupFails : ℕ → Bool
  createDur : ℕ → ℚ
  chmodDur : ℕ → ℚ
  deleteDur : ℕ → ℚ

/-- One attempted operation of `MetadataOperations.run_metadata_tests` on
file `meta_<i>.txt`. -/
inductive MetaOp where
  | create (i : ℕ)
  | chmod (i : ℕ)
  | delete (i : ℕ)
deriving DecidableEq

/-- The run's context: the set of files currently present in the target
directory, the `file_paths` list of files created so far, the
attempted-operation trace, and the clock started just before the create
pass. -/
structure MetaState where
  fs : Finset ℕ
  tracked : List ℕ
  trace : List MetaOp
  clock : ℚ
deriving DecidableEq

/-- The create pass (`file_path.touch()` then
`file_paths.append(file_path)` per index): a raising `touch` aborts the
pass, leaving the failed file neither on disk nor in `file_paths`. -/
def createPass (env : MetaEnv) : List ℕ → MetaState → MetaState × Option MetaErr
  | [], st => (st, none)
  | i :: rest, st =>
    let st' : MetaState :=
      { st with clock := st.clock + env.createDur i
                trace := st.trace ++ [MetaOp.create i] }
    if env.createFails i then (st', some (MetaErr.createErr i))
    else createPass env rest
      { st' with fs := insert i st'.fs, tracked := st'.tracked ++ [i] }

/-- The chmod pass (`os.chmod(file_path, 0o644)` over `file_paths`). -/
def chmodPass (env : MetaEnv) : List ℕ → MetaState → MetaState × Option MetaErr
  | [], st => (st, none)
  | i :: rest, st =>
    let st' : MetaState :=
      { st with clock := st.clock + env.chmodDur i
                trace := st.trace ++ [MetaOp.chmod i] }
    if env.chmodFails i then (st', some (MetaErr.chmodErr i))
    else chmodPass env rest st'

/-- The delete pass (`file_path.unlink()` over `file_paths`): a successful
unlink removes the file, a raising one aborts with the file still there. -/
def deletePass (env : MetaEnv) : List ℕ → MetaState → MetaState × Option MetaErr
  | [], st => (st, none)
  | i :: rest, st =>
    let st' : MetaState :=
      { st with clock := st.clock + env.deleteDur i
                trace := st.trace ++ [MetaOp.delete i] }
    if env.deleteFails i then (st', some (MetaErr.deleteErr i))
    else deletePass env rest { st' with fs := st'.fs.erase i }

/-- The `except` block's best-effort compensation (`metadata.py` lines
64–69): for every tracked path, if the file still exists try to unlink it,
suppressing any exception the cleanup unlink itself raises. -/
def cleanup (env : MetaEnv) : List ℕ → Finset ℕ → Finset ℕ
  | [], fs => fs
  | i :: rest, fs =>
    if i ∈ fs then
      if env.cleanupFails i then cleanup env rest fs
      else cleanup env rest (fs.erase i)
    else cleanup env rest fs

/-- The `except` clause of `run_metadata_tests` threaded around one pass:
if the pass raised, run the best-effort cleanup over `file_paths` and
re-raise the original error; otherwise continue with the rest of the `try`
block. -/
def afterPass (env : MetaEnv)
    (next : MetaState → Except MetaErr ℚ × MetaState) :
    MetaState × Option MetaErr → Except MetaErr ℚ × MetaState
  | (st, some e) =>
    (.error e, { st with fs := cleanup env st.tracked st.fs })
  | (st, none) => next st

/-- Embeds `MetadataOperations.run_metadata_tests` (`metadata.py` lines
17–70): three strict passes — create all, chmod all, delete all — over
`count` files, returning the elapsed wall-clock time on success; on the
first failure, best-effort cleanup of every tracked file followed by
re-raising the original error. The second component is the final run
context. -/
def run_metadata_tests (env : MetaEnv) (count : ℕ) :
    Except MetaErr ℚ × MetaState :=
  afterPass env (fun st1 =>
    afterPass env (fun st2 =>
      afterPass env (fun st3 => (.ok st3.clock, st3))
        (deletePass env st2.tracked st2))
      (chmodPass env st1.tracked st1))
    (createPass env (List.range count)
      { fs := ∅, tracked := [], trace := [], clock := 0 })

/-- Embeds the metadata block of `run_all_benchmarks` (lines 259–263): the
metric record receives the elapsed time returned by `run_metadata_tests`,
`operations_count = Config.METADATA_OPERATIONS_COUNT * 3` and
`iops = operations_count / elapsed`; every other field keeps its
construction default. -/
def metadata_phase_metrics (env : MetaEnv) (count : ℕ) :
    Except MetaErr BenchmarkMetrics :=
  match (run_metadata_tests env count).1 with
  | .error e => .error e
  | .ok elapsed =>
    .ok { test_name := "Metadata Operations"
          elapsed_sec := elapsed
          operations_count := count * 3
          iops := ((count * 3 : ℕ) : ℚ) / elapsed }

theorem createPass_ok (env : MetaEnv) :
    ∀ (l : List ℕ) (st : MetaState), (∀ i ∈ l, env.createFails i = false) →
      createPass env l st =
        ({ fs := l.foldl (fun s i => insert i s) st.fs
           tracked := st.tracked ++ l
           trace := st.trace ++ l.map MetaOp.create
           clock := st.clock + (l.map env.createDur).sum }, none) := by
  intro l
  induction l with
  | nil => intro st _; simp [createPass]
  | cons i rest ih =>
    intro st hok
    have hi : env.createFails i = false := hok i (List.mem_cons_self i rest)
    rw [show createPass env (i :: rest) st =
        (if env.createFails i then
          ({ st with clock := st.clock + env.createDur i
                     trace := st.trace ++ [MetaOp.create i] },
            some (MetaErr.createErr i))
        else createPass env rest
          { fs := insert i st.fs
            tracked := st.tracked ++ [i]
            trace := st.trace ++ [MetaOp.create i]
            clock := st.clock + env.createDur i }) from rfl,
      hi]
    simp only [Bool.false_eq_true, if_false]
    rw [ih _ (fun j hj => hok j (List.mem_cons_of_mem i hj))]
    simp [List.append_assoc, add_assoc]

theorem chmodPass_ok (env : MetaEnv) :
    ∀ (l : List ℕ) (st : MetaState), (∀ i ∈ l, env.chmodFails i = false) →
      chmodPass env l st =
        ({ st with trace := st.trace ++ l.map MetaOp.chmod
                   clock := st.clock + (l.map env.chmodDur).sum }, none) := by
  intro l
  induction l with
  | nil => intro st _; simp [chmodPass]
  | cons i rest ih =>
    intro st hok
    have hi : env.chmodFails i = false := hok i (List.mem_cons_self i rest)
    rw [show chmodPass env (i :: rest) st =
        (if env.chmodFails i then
          ({ st with clock := st.clock + env.chmodDur i
                     trace := st.trace ++ [MetaOp.chmod i] },
            some (MetaErr.chmodErr i))
        else chmodPass env rest
          { st with clock := st.clock + env.chmodDur i
                    trace := st.trace ++ [MetaOp.chmod i] }) from rfl,
      hi]
    simp only [Bool.false_eq_true, if_false]
    rw [ih _ (fun j hj => hok j (List.mem_cons_of_mem i hj))]
    simp [List.append_assoc, add_assoc]

theorem deletePass_ok (env : MetaEnv) :
    ∀ (l : List ℕ) (st : MetaState), (∀ i ∈ l, env.deleteFails i = false) →
      deletePass env l st =
        ({ st with fs := l.foldl (fun s i => s.erase i) st.fs
                   trace := st.trace ++ l.map MetaOp.delete
                   clock := st.clock + (l.map env.deleteDur).sum }, none) := by
  intro l
  induction l with
  | nil => intro st _; simp [deletePass]
  | cons i rest ih =>
    intro st hok
    have hi : env.deleteFails i = false := hok i (List.mem_cons_self i rest)
    rw [show deletePass env (i :: rest) st =
        (if env.deleteFails i then
          ({ st with clock := st.clock + env.deleteDur i
                     trace := st.trace ++ [MetaOp.delete i] },
            some (MetaErr.deleteErr i))
        else deletePass env rest
          { fs := st.fs.erase i
            tracked := st.tracked
            trace := st.trace ++ [MetaOp.delete i]
            clock := st.clock + env.deleteDur i }) from rfl,
      hi]
    simp only [Bool.false_eq_true, if_false]
    rw [ih _ (fun j hj => hok j (List.mem_cons_of_mem i hj))]
    simp [List.append_assoc, add_assoc]

theorem run_metadata_tests_ok (env : MetaEnv) (count : ℕ)
    (hc : ∀ i < count, env.createFails i = false)
    (hm : ∀ i < count, env.chmodFails i = false)
    (hd : ∀ i < count, env.deleteFails i = false) :
    run_metadata_tests env count =
      (.ok (((List.range count).map env.createDur).sum +
          ((List.range count).map env.chmodDur).sum +
          ((List.range count).map env.deleteDur).sum),
        { fs := (List.range count).foldl (fun s i => s.erase i)
            ((List.range count).foldl (fun s i => insert i s) ∅)
          tracked := List.range count
          trace := (List.range count).map MetaOp.create ++
            (List.range count).map MetaOp.chmod ++
            (List.range count).map MetaOp.delete
          clock := ((List.range count).map env.createDur).sum +
            ((List.range count).map env.chmodDur).sum +
            ((List.range count).map env.deleteDur).sum }) := by
  have h1 : createPass env (List.range count)
      { fs := ∅, tracked := [], trace := [], clock := 0 } =
      ({ fs := (List.range count).foldl (fun s i => insert i s) ∅
         tracked := List.range count
         trace := (List.range count).map MetaOp.create
         clock := ((List.range count).map env.createDur).sum }, none) := by
    rw [createPass_ok env _ _ (fun i hi => hc i (List.mem_range.mp hi))]
    simp
  have h2 : chmodPass env (List.range count)
      { fs := (List.range count).foldl (fun s i => insert i s) ∅
        tracked := List.range count
        trace := (List.range count).map MetaOp.create
        clock := ((List.range count).map env.createDur).sum } =
      ({ fs := (List.range count).foldl (fun s i => insert i s) ∅
         tracked := List.range count
         trace := (List.range count).map MetaOp.create ++
           (List.range count).map MetaOp.chmod
         clock := ((List.range count).map env.createDur).sum +
           ((List.range count).map env.chmodDur).sum }, none) := by
    rw [chmodPass_ok env _ _ (fun i hi => hm i (List.mem_range.mp hi))]
  have h3 : deletePass env (List.range count)
      { fs := (List.range count).foldl (fun s i => insert i s) ∅
        tracked := List.range count
        trace := (List.range count).map MetaOp.create ++
          (List.range count).map MetaOp.chmod
        clock := ((List.range count).map env.createDur).sum +
          ((List.range count).map env.chmodDur).sum } =
      ({ fs := (List.range count).foldl (fun s i => s.erase i)
           ((List.range count).foldl (fun s i => insert i s) ∅)
         tracked := List.range count
         trace := (List.range count).map MetaOp.create ++
           (List.range count).map MetaOp.chmod ++
           (List.range count).map MetaOp.delete
         clock := ((List.range count).map env.createDur).sum +
           ((List.range count).map env.chmodDur).sum +
           ((List.range count).map env.deleteDur).sum }, none) := by
    rw [deletePass_ok env _ _ (fun i hi => hd i (List.mem_range.mp hi))]
  simp only [run_metadata_tests, h1, afterPass, h2, h3]

/-- C5: with no faults injected, the metadata benchmark performs three full
passes with a strict phase barrier — it attempts exactly the operation
sequence create 0..C-1, then chmod 0..C-1, then delete 0..C-1, never
interleaving — its elapsed time is the total duration of all three passes,
and the resulting metric record reports `operations_count = 3×C`. -/
theorem C5_metadata_strict_passes (env : MetaEnv) (count : ℕ)
    (hc : ∀ i < count, env.createFails i = false)
    (hm : ∀ i < count, env.chmodFails i = false)
    (hd : ∀ i < count, env.deleteFails i = false) :
    (run_metadata_tests env count).2.trace =
        (List.range count).map MetaOp.create ++
          (List.range count).map MetaOp.chmod ++
          (List.range count).map MetaOp.delete ∧
      (run_metadata_tests env count).1 =
        .ok (((List.range count).map env.createDur).sum +
          ((List.range count).map env.chmodDur).sum +
          ((List.range count).map env.deleteDur).sum) ∧
      ∃ m, metadata_phase_metrics env count = .ok m ∧
        m.operations_count = 3 * count ∧
        m.elapsed_sec = ((List.range count).map env.createDur).sum +
          ((List.range count).map env.chmodDur).sum +
          ((List.range count).map env.deleteDur).sum := by
  have hrun := run_metadata_tests_ok env count hc hm hd
  refine ⟨by rw [hrun], by rw [hrun],
    ⟨{ test_name := "Metadata Operations"
       elapsed_sec := ((List.range count).map env.createDur).sum +
         ((List.range count).map env.chmodDur).sum +
         ((List.range count).map env.deleteDur).sum
       operations_count := count * 3
       iops := ((count * 3 : ℕ) : ℚ) /
         (((List.range count).map env.createDur).sum +
           ((List.range count).map env.chmodDur).sum +
           ((List.range count).map env.deleteDur).sum) },
      ?_, Nat.mul_comm _ _, rfl⟩⟩
  simp only [metadata_phase_metrics, hrun]

/-- Witness for C5: three files, unit durations, no faults. -/
theorem C5_metadata_strict_passes_witness :
    (∀ i < 3, (MetaEnv.mk (fun _ => false) (fun _ => false) (fun _ => false)
        (fun _ => false) (fun _ => 1) (fun _ => 1) (fun _ => 1)).createFails i
        = false) ∧
      (run_metadata_tests (MetaEnv.mk (fun _ => false) (fun _ => false)
          (fun _ => false) (fun _ => false) (fun _ => 1) (fun _ => 1)
          (fun _ => 1)) 3).2.trace =
          (List.range 3).map MetaOp.create ++ (List.range 3).map MetaOp.chmod
            ++ (List.range 3).map MetaOp.delete ∧
        (run_metadata_tests (MetaEnv.mk (fun _ => false) (fun _ => false)
            (fun _ => false) (fun _ => false) (fun _ => 1) (fun _ => 1)
            (fun _ => 1)) 3).1 =
          .ok (((List.range 3).map (fun _ => (1 : ℚ))).sum +
            ((List.range 3).map (fun _ => (1 : ℚ))).sum +
            ((List.range 3).map (fun _ => (1 : ℚ))).sum) ∧
        ∃ m, metadata_phase_metrics (MetaEnv.mk (fun _ => false)
            (fun _ => false) (fun _ => false) (fun _ => false) (fun _ => 1)
            (fun _ => 1) (fun _ => 1)) 3 = .ok m ∧
          m.operations_count = 3 * 3 ∧
          m.elapsed_sec = ((List.range 3).map (fun _ => (1 : ℚ))).sum +
            ((List.range 3).map (fun _ => (1 : ℚ))).sum +
            ((List.range 3).map (fun _ => (1 : ℚ))).sum :=
  ⟨fun _ _ => rfl,
    C5_metadata_strict_passes _ 3 (fun _ _ => rfl) (fun _ _ => rfl)
      (fun _ _ => rfl)⟩

theorem cleanup_subset (env : MetaEnv) :
    ∀ (l : List ℕ) (fs : Finset ℕ), cleanup env l fs ⊆ fs := by
  intro l
  induction l with
  | nil => intro fs x hx; exact hx
  | cons i rest ih =>
    intro fs
    rw [show cleanup env (i :: rest) fs =
        (if i ∈ fs then
          (if env.cleanupFails i then cleanup env rest fs
           else cleanup env rest (fs.erase i))
         else cleanup env rest fs) from rfl]
    split
    · split
      · exact ih fs
      · exact (ih (fs.erase i)).trans (Finset.erase_subset _ _)
    · exact ih fs

theorem cleanup_removes (env : MetaEnv) :
    ∀ (l : List ℕ) (fs : Finset ℕ) (i : ℕ), i ∈ l →
      env.cleanupFails i = false → i ∉ cleanup env l fs := by
  intro l
  induction l with
  | nil => intro fs i hi _; exact absurd hi (List.not_mem_nil i)
  | cons j rest ih =>
    intro fs i hi hfail
    rw [show cleanup env (j :: rest) fs =
        (if j ∈ fs then
          (if env.cleanupFails j then cleanup env rest fs
           else cleanup env rest (fs.erase j))
         else cleanup env rest fs) from rfl]
    rcases List.mem_cons.mp hi with heq | hmem
    · subst heq
      split
      · rw [if_neg (by rw [hfail]; simp)]
        intro hbad
        exact Finset.not_mem_erase i fs (cleanup_subset env rest _ hbad)
      · intro hbad
        next hnot => exact hnot (cleanup_subset env rest fs hbad)
    · split
      · split
        · exact ih fs i hmem hfail
        · exact ih (fs.erase j) i hmem hfail
      · exact ih fs i hmem hfail

theorem createPass_cleanup_irrelevant (env : MetaEnv) (f : ℕ → Bool) :
    ∀ (l : List ℕ) (st : MetaState),
      createPass { env with cleanupFails := f } l st = createPass env l st := by
  intro l
  induction l with
  | nil => intro st; rfl
  | cons i rest ih =>
    intro st
    rw [show createPass { env with cleanupFails := f } (i :: rest) st =
        (if env.createFails i then
          ({ st with clock := st.clock + env.createDur i
                     trace := st.trace ++ [MetaOp.create i] },
            some (MetaErr.createErr i))
         else createPass { env with cleanupFails := f } rest
          { fs := insert i st.fs
            tracked := st.tracked ++ [i]
            trace := st.trace ++ [MetaOp.create i]
            clock := st.clock + env.createDur i }) from rfl,
      show createPass env (i :: rest) st =
        (if env.createFails i then
          ({ st with clock := st.clock + env.createDur i
                     trace := st.trace ++ [MetaOp.create i] },
            some (MetaErr.createErr i))
         else createPass env rest
          { fs := insert i st.fs
            tracked := st.tracked ++ [i]
            trace := st.trace ++ [MetaOp.create i]
            clock := st.clock + env.createDur i }) from rfl]
    split
    · rfl
    · exact ih _

theorem chmodPass_cleanup_irrelevant (env : MetaEnv) (f : ℕ → Bool) :
    ∀ (l : List ℕ) (st : MetaState),
      chmodPass { env with cleanupFails := f } l st = chmodPass env l st := by
  intro l
  induction l with
  | nil => intro st; rfl
  | cons i rest ih =>
    intro st
    rw [show chmodPass { env with cleanupFails := f } (i :: rest) st =
        (if env.chmodFails i then
          ({ st with clock := st.clock + env.chmodDur i
                     trace := st.trace ++ [MetaOp.chmod i] },
            some (MetaErr.chmodErr i))
         else chmodPass { env with cleanupFails := f } rest
          { st with clock := st.clock + env.chmodDur i
                    trace := st.trace ++ [MetaOp.chmod i] }) from rfl,
      show chmodPass env (i :: rest) st =
        (if env.chmodFails i then
          ({ st with clock := st.clock + env.chmodDur i
                     trace := st.trace ++ [MetaOp.chmod i] },
            some (MetaErr.chmodErr i))
         else chmodPass env rest
          { st with clock := st.clock + env.chmodDur i
                    trace := st.trace ++ [MetaOp.chmod i] }) from rfl]
    split
    · rfl
    · exact ih _

theorem deletePass_cleanup_irrelevant (env : MetaEnv) (f : ℕ → Bool) :
    ∀ (l : List ℕ) (st : MetaState),
      deletePass { env with cleanupFails := f } l st = deletePass env l st := by
  intro l
  induction l with
  | nil => intro st; rfl
  | cons i rest ih =>
    intro st
    rw [show deletePass { env with cleanupFails := f } (i :: rest) st =
        (if env.deleteFails i then
          ({ st with clock := st.clock + env.deleteDur i
                     trace := st.trace ++ [MetaOp.delete i] },
            some (MetaErr.deleteErr i))
         else deletePass { env with cleanupFails := f } rest
          { fs := st.fs.erase i
            tracked := st.tracked
            trace := st.trace ++ [MetaOp.delete i]
            clock := st.clock + env.deleteDur i }) from rfl,
      show deletePass env (i :: rest) st =
        (if env.deleteFails i then
          ({ st with clock := st.clock + env.deleteDur i
                     trace := st.trace ++ [MetaOp.delete i] },
            some (MetaErr.deleteErr i))
         else deletePass env rest
          { fs := st.fs.erase i
            tracked := st.tracked
            trace := st.trace ++ [MetaOp.delete i]
            clock := st.clock + env.deleteDur i }) from rfl]
    split
    · rfl
    · exact ih _

theorem afterPass_fst (env env' : MetaEnv)
    (next next' : MetaState → Except MetaErr ℚ × MetaState)
    (h : ∀ st, (next' st).1 = (next st).1) :
    ∀ p, (afterPass env' next' p).1 = (afterPass env next p).1
  | (_, some _) => rfl
  | (st, none) => h st

theorem run_metadata_tests_fst_cleanup_irrelevant (env : MetaEnv)
    (f : ℕ → Bool) (count : ℕ) :
    (run_metadata_tests { env with cleanupFails := f } count).1 =
      (run_metadata_tests env count).1 := by
  unfold run_metadata_tests
  rw [createPass_cleanup_irrelevant env f]
  refine afterPass_fst env _ _ _ (fun st1 => ?_) _
  rw [chmodPass_cleanup_irrelevant env f]
  refine afterPass_fst env _ _ _ (fun st2 => ?_) _
  rw [deletePass_cleanup_irrelevant env f]
  exact afterPass_fst env _ _ _ (fun st3 => rfl) _

/-- Any failing run ends in the state produced by running the best-effort
cleanup over the tracked `file_paths`, carrying the original error. -/
theorem run_metadata_tests_error_shape (env : MetaEnv) (count : ℕ)
    (e : MetaErr) (h : (run_metadata_tests env count).1 = .error e) :
    ∃ st : MetaState, run_metadata_tests env count =
      (.error e, { st with fs := cleanup env st.tracked st.fs }) := by
  unfold run_metadata_tests at h ⊢
  rcases h1 : createPass env (List.range count)
      { fs := ∅, tracked := [], trace := [], clock := 0 } with ⟨st1, oe1⟩
  rw [h1] at h
  cases oe1 with
  | some e0 =>
    obtain rfl : e0 = e := by simpa [afterPass] using h
    exact ⟨st1, rfl⟩
  | none =>
    simp only [afterPass] at h ⊢
    rcases h2 : chmodPass env st1.tracked st1 with ⟨st2, oe2⟩
    rw [h2] at h
    cases oe2 with
    | some e0 =>
      obtain rfl : e0 = e := by simpa [afterPass] using h
      exact ⟨st2, rfl⟩
    | none =>
      simp only [afterPass] at h ⊢
      rcases h3 : deletePass env st2.tracked st2 with ⟨st3, oe3⟩
      rw [h3] at h
      cases oe3 with
      | some e0 =>
        obtain rfl : e0 = e := by simpa [afterPass] using h
        exact ⟨st3, rfl⟩
      | none => exact absurd h (by simp [afterPass])

/-- C6: whenever the metadata benchmark fails mid-run, every file it had
created so far whose best-effort unlink does not itself fail is absent from
the final directory state, and the original error is re-raised unchanged —
in particular the outcome does not depend on which cleanup unlinks raise
(secondary errors are suppressed and never reach the caller). -/
theorem C6_metadata_cleanup_on_failure (env : MetaEnv) (f : ℕ → Bool)
    (count : ℕ) (e : MetaErr)
    (h : (run_metadata_tests env count).1 = .error e) :
    (∀ i ∈ (run_metadata_tests env count).2.tracked,
        env.cleanupFails i = false →
          i ∉ (run_metadata_tests env count).2.fs) ∧
      (run_metadata_tests { env with cleanupFails := f } count).1 =
        .error e := by
  refine ⟨?_, by rw [run_metadata_tests_fst_cleanup_irrelevant env f count, h]⟩
  obtain ⟨st, hst⟩ := run_metadata_tests_error_shape env count e h
  rw [hst]
  intro i hi hf
  exact cleanup_removes env st.tracked st.fs i hi hf

/-- A fault model in which `touch` raises on file index 7 and nothing else
fails; used to exercise the failure path concretely. -/
def metaEnvFailAt7 : MetaEnv :=
  ⟨fun i => i == 7, fun _ => false, fun _ => false, fun _ => false,
    fun _ => 1, fun _ => 1, fun _ => 1⟩

/-- Witness for C6: create fails on file 7 of 10; files 0–6 are cleaned up
and the create error is re-raised, also under a cleanup that itself fails. -/
theorem C6_metadata_cleanup_on_failure_witness :
    ((run_metadata_tests metaEnvFailAt7 10).1 =
        .error (MetaErr.createErr 7)) ∧
      (∀ i ∈ (run_metadata_tests metaEnvFailAt7 10).2.tracked,
          metaEnvFailAt7.cleanupFails i = false →
            i ∉ (run_metadata_tests metaEnvFailAt7 10).2.fs) ∧
        (run_metadata_tests { metaEnvFailAt7 with cleanupFails := fun _ => true }
            10).1 = .error (MetaErr.createErr 7) :=
  ⟨by rfl, C6_metadata_cleanup_on_failure metaEnvFailAt7 (fun _ => true) 10
    (MetaErr.createErr 7) (by rfl)⟩

/-- C10: the metric records produced by the random small-file benchmark and
by the metadata phase keep `throughput_mbps` and `file_size_mb` at their
construction defaults of `0.0` (those fields are never assigned), while
`elapsed_sec`, `iops` and `operations_count` are assigned — and
`latency_percentiles` is assigned only for the random record, the metadata
record keeping its empty default. -/
theorem C10_default_fields_frame (cap : ℕ) (ranks : List ℚ)
    (files : List SmallFile) (env : MetaEnv) (count : ℕ) :
    (∀ m, (random_file_read_write cap ranks files).1 = .ok m →
        m.throughput_mbps = 0 ∧ m.file_size_mb = 0 ∧
        m.operations_count = files.length * 2 ∧
        m.elapsed_sec = (files.map (fun f => f.readDur)).sum +
          (files.map (fun f => f.appendDur)).sum ∧
        m.iops = ((files.length * 2 : ℕ) : ℚ) / m.elapsed_sec ∧
        m.latency_percentiles = calculate_percentiles ranks
          (sampleLoop (min cap files.length) 0
              (files.map (fun f => f.readDur)) ++
            sampleLoop (min cap files.length) 0
              (files.map (fun f => f.appendDur)))) ∧
      (∀ m, metadata_phase_metrics env count = .ok m →
        m.throughput_mbps = 0 ∧ m.file_size_mb = 0 ∧
        m.latency_percentiles = [] ∧
        m.operations_count = count * 3 ∧
        (run_metadata_tests env count).1 = .ok m.elapsed_sec ∧
        m.iops = ((count * 3 : ℕ) : ℚ) / m.elapsed_sec) := by
  constructor
  · intro m hm
    by_cases hemp : files.isEmpty
    · unfold random_file_read_write at hm
      rw [if_pos hemp] at hm
      exact absurd hm (by simp)
    · unfold random_file_read_write at hm
      rw [if_neg hemp] at hm
      obtain rfl := (Except.ok.injEq _ _).mp hm.symm
      exact ⟨rfl, rfl, rfl, rfl, rfl, rfl⟩
  · intro m hm
    unfold metadata_phase_metrics at hm
    rcases hr : (run_metadata_tests env count).1 with e | elapsed
    · rw [hr] at hm
      exact absurd hm (by simp)
    · rw [hr] at hm
      injection hm with h2
      subst h2
      exact ⟨rfl, rfl, rfl, rfl, by simp [hr], rfl⟩

instance exceptDecEq {e a : Type} [DecidableEq e] [DecidableEq a] :
    DecidableEq (Except e a) := fun x y =>
  match x, y with
  | .error u, .error v =>
    if h : u = v then isTrue (congrArg Except.error h)
    else isFalse (fun hc => h (Except.error.inj hc))
  | .error _, .ok _ => isFalse (fun hc => Except.noConfusion hc)
  | .ok _, .error _ => isFalse (fun hc => Except.noConfusion hc)
  | .ok u, .ok v =>
    if h : u = v then isTrue (congrArg Except.ok h)
    else isFalse (fun hc => h (Except.ok.inj hc))

/-- A fault-free metadata environment with unit call durations. -/
def metaEnvNoFail : MetaEnv :=
  ⟨fun _ => false, fun _ => false, fun _ => false, fun _ => false,
    fun _ => 1, fun _ => 1, fun _ => 1⟩

/-- Witness for C10 at a one-file directory (no ranks configured, so the
random record's percentile mapping is empty) and a two-file metadata run. -/
theorem C10_default_fields_frame_witness :
    ((random_file_read_write 1 [] [SmallFile.mk 1 2]).1 =
        .ok ⟨"Random Read/Write Small Files", 3, 0, 2 / 3, [], 0, 2⟩) ∧
      ((⟨"Random Read/Write Small Files", 3, 0, 2 / 3, [], 0, 2⟩ :
            BenchmarkMetrics).throughput_mbps = 0 ∧
        (⟨"Random Read/Write Small Files", 3, 0, 2 / 3, [], 0, 2⟩ :
            BenchmarkMetrics).file_size_mb = 0 ∧
        (⟨"Random Read/Write Small Files", 3, 0, 2 / 3, [], 0, 2⟩ :
            BenchmarkMetrics).operations_count =
          [SmallFile.mk 1 2].length * 2 ∧
        (⟨"Random Read/Write Small Files", 3, 0, 2 / 3, [], 0, 2⟩ :
            BenchmarkMetrics).elapsed_sec =
          ([SmallFile.mk 1 2].map (fun f => f.readDur)).sum +
            ([SmallFile.mk 1 2].map (fun f => f.appendDur)).sum ∧
        (⟨"Random Read/Write Small Files", 3, 0, 2 / 3, [], 0, 2⟩ :
            BenchmarkMetrics).iops =
          (([SmallFile.mk 1 2].length * 2 : ℕ) : ℚ) /
            (⟨"Random Read/Write Small Files", 3, 0, 2 / 3, [], 0, 2⟩ :
              BenchmarkMetrics).elapsed_sec ∧
        (⟨"Random Read/Write Small Files", 3, 0, 2 / 3, [], 0, 2⟩ :
            BenchmarkMetrics).latency_percentiles =
          calculate_percentiles []
            (sampleLoop (min 1 [SmallFile.mk 1 2].length) 0
                ([SmallFile.mk 1 2].map (fun f => f.readDur)) ++
              sampleLoop (min 1 [SmallFile.mk 1 2].length) 0
                ([SmallFile.mk 1 2].map (fun f => f.appendDur)))) ∧
      (metadata_phase_metrics metaEnvNoFail 2 =
        .ok ⟨"Metadata Operations", 6, 0, 1, [], 0, 6⟩) ∧
      ((⟨"Metadata Operations", 6, 0, 1, [], 0, 6⟩ :
            BenchmarkMetrics).throughput_mbps = 0 ∧
        (⟨"Metadata Operations", 6, 0, 1, [], 0, 6⟩ :
            BenchmarkMetrics).file_size_mb = 0 ∧
        (⟨"Metadata Operations", 6, 0, 1, [], 0, 6⟩ :
            BenchmarkMetrics).latency_percentiles = [] ∧
        (⟨"Metadata Operations", 6, 0, 1, [], 0, 6⟩ :
            BenchmarkMetrics).operations_count = 2 * 3 ∧
        (run_metadata_tests metaEnvNoFail 2).1 =
          .ok (⟨"Metadata Operations", 6, 0, 1, [], 0, 6⟩ :
            BenchmarkMetrics).elapsed_sec ∧
        (⟨"Metadata Operations", 6, 0, 1, [], 0, 6⟩ :
            BenchmarkMetrics).iops =
          ((2 * 3 : ℕ) : ℚ) / (⟨"Metadata Operations", 6, 0, 1, [], 0, 6⟩ :
            BenchmarkMetrics).elapsed_sec) :=
  by
  have h1 : (random_file_read_write 1 [] [SmallFile.mk 1 2]).1 =
      .ok ⟨"Random Read/Write Small Files", 3, 0, 2 / 3, [], 0, 2⟩ := by
    simp [random_file_read_write, sampleLoop, calculate_percentiles]
    norm_num
  have h2 : metadata_phase_metrics metaEnvNoFail 2 =
      .ok ⟨"Metadata Operations", 6, 0, 1, [], 0, 6⟩ := by
    have hrun := run_metadata_tests_ok metaEnvNoFail 2 (fun _ _ => rfl)
      (fun _ _ => rfl) (fun _ _ => rfl)
    unfold metadata_phase_metrics
    rw [hrun]
    simp [metaEnvNoFail, List.range_succ]
    norm_num
  exact ⟨h1,
    (C10_default_fields_frame 1 [] [SmallFile.mk 1 2] metaEnvNoFail 2).1 _ h1,
    h2,
    (C10_default_fields_frame 1 [] [SmallFile.mk 1 2] metaEnvNoFail 2).2 _ h2⟩

/-- The configuration and external state `run_all_benchmarks` runs against:
the injected configuration values, the large-file and small-file fixtures,
the metadata fault model, and the duration/fault oracles of the write
loops. -/
structure World where
  cap : ℕ
  ranks : List ℚ
  largeSizes : List ℕ
  metaCount : ℕ
  largeFiles : ℕ → Option LargeFile
  smallFiles : List SmallFile
  metaEnv : MetaEnv
  writeChunkOf : ℕ → ℕ → WriteChunk
  writeFails : ℕ → Bool

/-- Embeds `BenchmarkRunner.sequential_write_multi_size` (lines 51–60): one
sequential write per configured size, in configured order, first failure
aborting the remaining sizes. -/
def sequential_write_multi_size (w : World) :
    List ℕ → Except BenchErr (List BenchmarkMetrics)
  | [] => .ok []
  | sizeGb :: rest =>
    if w.writeFails sizeGb then .error (.writeFailure sizeGb)
    else
      match sequential_write_multi_size w rest with
      | .error e => .error e
      | .ok ms =>
        .ok (sequential_write_single w.cap w.ranks sizeGb
          (w.writeChunkOf sizeGb) :: ms)

/-- Embeds `BenchmarkRunner.sequential_read_multi_size` (lines 111–120): one
sequential read per configured size, in configured order, first failure
aborting the remaining sizes. -/
def sequential_read_multi_size (w : World) :
    List ℕ → Except BenchErr (List BenchmarkMetrics)
  | [] => .ok []
  | sizeGb :: rest =>
    match (sequential_read_single w.largeFiles w.cap w.ranks sizeGb).1 with
    | .error e => .error e
    | .ok m =>
      match sequential_read_multi_size w rest with
      | .error e => .error e
      | .ok ms => .ok (m :: ms)

/-- The `results` dictionary `run_all_benchmarks` assembles on success. -/
structure ResultsAggregate where
  sequential_write : List BenchmarkMetrics
  sequential_read : List BenchmarkMetrics
  random_rw : BenchmarkMetrics
  metadata : BenchmarkMetrics
deriving DecidableEq

/-- The phases of `run_all_benchmarks`, as logged by
`logger.info("phase_started", phase=...)` just before each phase runs. -/
inductive PhaseTag where
  | seqWrite
  | seqRead
  | randomRW
  | metadata
deriving DecidableEq

/-- The fixed phase order of `run_all_benchmarks`. -/
def phase_order : List PhaseTag :=
  [PhaseTag.seqWrite, PhaseTag.seqRead, PhaseTag.randomRW, PhaseTag.metadata]

/-- Embeds `BenchmarkRunner.run_all_benchmarks` (lines 234–270): the four
phases run in the fixed order inside one `try` block, so the first raising
phase aborts the rest and its exception propagates; the second component is
the list of `phase_started` log entries. -/
def run_all_benchmarks (w : World) :
    Except BenchErr ResultsAggregate × List PhaseTag :=
  match sequential_write_multi_size w w.largeSizes with
  | .error e => (.error e, [PhaseTag.seqWrite])
  | .ok sw =>
    match sequential_read_multi_size w w.largeSizes with
    | .error e => (.error e, [PhaseTag.seqWrite, PhaseTag.seqRead])
    | .ok sr =>
      match (random_file_read_write w.cap w.ranks w.smallFiles).1 with
      | .error e =>
        (.error e, [PhaseTag.seqWrite, PhaseTag.seqRead, PhaseTag.randomRW])
      | .ok rw =>
        match metadata_phase_metrics w.metaEnv w.metaCount with
        | .error e => (.error (.metaFailure e), phase_order)
        | .ok md => (.ok ⟨sw, sr, rw, md⟩, phase_order)

/-- C9: the runner always attempts the phases in the fixed order
sequential-write, sequential-read, random read/write, metadata (the log is
a prefix of that order, and the full order exactly when the run succeeds),
and the first phase failure aborts all later phases — none of them is
started — with the error propagating to the caller. -/
theorem C9_phase_order_fail_fast (w : World) :
    (∃ k, (run_all_benchmarks w).2 = phase_order.take k) ∧
      (∀ r, (run_all_benchmarks w).1 = .ok r →
        (run_all_benchmarks w).2 = phase_order) ∧
      (∀ e, sequential_write_multi_size w w.largeSizes = .error e →
        (run_all_benchmarks w).1 = .error e ∧
          (run_all_benchmarks w).2 = phase_order.take 1) ∧
      (∀ e sw, sequential_write_multi_size w w.largeSizes = .ok sw →
        sequential_read_multi_size w w.largeSizes = .error e →
        (run_all_benchmarks w).1 = .error e ∧
          (run_all_benchmarks w).2 = phase_order.take 2) ∧
      (∀ e sw sr, sequential_write_multi_size w w.largeSizes = .ok sw →
        sequential_read_multi_size w w.largeSizes = .ok sr →
        (random_file_read_write w.cap w.ranks w.smallFiles).1 = .error e →
        (run_all_benchmarks w).1 = .error e ∧
          (run_all_benchmarks w).2 = phase_order.take 3) ∧
      (∀ e sw sr mrw, sequential_write_multi_size w w.largeSizes = .ok sw →
        sequential_read_multi_size w w.largeSizes = .ok sr →
        (random_file_read_write w.cap w.ranks w.smallFiles).1 = .ok mrw →
        metadata_phase_metrics w.metaEnv w.metaCount = .error e →
        (run_all_benchmarks w).1 = .error (.metaFailure e) ∧
          (run_all_benchmarks w).2 = phase_order) := by
  refine ⟨?_, ?_, ?_, ?_, ?_, ?_⟩
  · unfold run_all_benchmarks
    rcases h1 : sequential_write_multi_size w w.largeSizes with e1 | sw
    · exact ⟨1, rfl⟩
    · rcases h2 : sequential_read_multi_size w w.largeSizes with e2 | sr
      · exact ⟨2, rfl⟩
      · rcases h3 : (random_file_read_write w.cap w.ranks w.smallFiles).1
          with e3 | mrw
        · exact ⟨3, rfl⟩
        · rcases h4 : metadata_phase_metrics w.metaEnv w.metaCount
            with e4 | md
          · exact ⟨4, rfl⟩
          · exact ⟨4, rfl⟩
  · intro r hr
    unfold run_all_benchmarks at hr ⊢
    rcases h1 : sequential_write_multi_size w w.largeSizes with e1 | sw
    · rw [h1] at hr
      exact absurd hr (by simp)
    · rw [h1] at hr
      rcases h2 : sequential_read_multi_size w w.largeSizes with e2 | sr
      · rw [h2] at hr
        exact absurd hr (by simp)
      · rw [h2] at hr
        rcases h3 : (random_file_read_write w.cap w.ranks w.smallFiles).1
            with e3 | mrw
        · rw [h3] at hr
          exact absurd hr (by simp)
        · rcases h4 : metadata_phase_metrics w.metaEnv w.metaCount
              with e4 | md
          · rfl
          · rfl
  · intro e he
    unfold run_all_benchmarks
    rw [he]
    exact ⟨rfl, rfl⟩
  · intro e sw hsw hsr
    unfold run_all_benchmarks
    rw [hsw, hsr]
    exact ⟨rfl, rfl⟩
  · intro e sw sr hsw hsr hrw
    unfold run_all_benchmarks
    rw [hsw, hsr, hrw]
    exact ⟨rfl, rfl⟩
  · intro e sw sr mrw hsw hsr hrw hmd
    unfold run_all_benchmarks
    rw [hsw, hsr, hrw, hmd]
    exact ⟨rfl, rfl⟩

/-- A world whose write phase fails on its single configured size. -/
def worldWriteFault : World :=
  ⟨1, [], [1], 1, fun _ => none, [], metaEnvNoFail,
    fun _ _ => ⟨1, 0⟩, fun _ => true⟩

/-- Witness for C9: with the write phase failing on size 1 GB, the run stops
after the first phase and propagates the write error. -/
theorem C9_phase_order_fail_fast_witness :
    (sequential_write_multi_size worldWriteFault worldWriteFault.largeSizes =
        .error (.writeFailure 1)) ∧
      (run_all_benchmarks worldWriteFault).1 = .error (.writeFailure 1) ∧
        (run_all_benchmarks worldWriteFault).2 = phase_order.take 1 :=
  ⟨by rfl, (C9_phase_order_fail_fast worldWriteFault).2.2.1
    (BenchErr.writeFailure 1) (by rfl)⟩

end FsBench
